import Mathlib

/-!
Verification development for the geolabel-maker core.

The embedding covers the two source modules:

* `rasters/utils.py` — the mask compositor (`color_mask`, `merge_masks`) and
  the slippy-map tile mathematics (`latlon2xyz`, `bbox2xyz`, `mercator2lat`,
  `yz2bounds`, `xz2bounds`, `xyz2bounds`);
* `annotations/annotation.py` — construction of an annotation set
  (`__init__` with `_check_value` / `_check_values`), `to_dict`, and
  `get_labels`.

Pure numeric code is embedded over `ℝ`/`ℤ`/`ℕ`; fallible code returns
`Except`.  Where a claim is about Python object identity (deep copies,
in-place mutation), the relevant objects live in an explicit heap
(`List` of objects addressed by position) so that allocation and aliasing
are observable.
-/

namespace Geolabel

/-! ## Mask compositor (`rasters/utils.py`) -/

/-- A pixel is an RGB triple of channel values. -/
abbrev Pixel := ℕ × ℕ × ℕ

/-- A mask is an image of RGB pixels, row major, of shape `(H, W, 3)`. -/
abbrev Mask := List (List Pixel)

/-- Error taxonomy of the embedding.  Python exception classes map to
constructors: `IndexError` from out-of-range list indexing, `KeyError` from a
missing dict key, and `ValueError` from the schema checks of `annotation.py`
(the spec calls it SchemaError).  `invalidArgument` is the spec's
InvalidArgument, which no source function actually raises; it is kept here so
the spec's claimed failure mode can be compared with the source's. -/
inductive Err
  | indexError
  | keyError
  | schemaError
  | invalidArgument
  deriving DecidableEq

/-- Embedding of `color_mask(mask, color)`: the source copies the input
(`color_img = mask.copy()`), selects every pixel different from pure black
(`np.any(color_img != [0, 0, 0], axis=-1)`) and overwrites the selected pixels
with `color`; black pixels are kept. -/
def color_mask (mask : Mask) (color : Pixel) : Mask :=
  mask.map (fun row => row.map (fun p => if p ≠ ((0, 0, 0) : Pixel) then color else p))

/-- Per-channel saturating addition at 255, the semantics of
`PIL.ImageChops.add` on 8-bit images. -/
def addChannel (a b : ℕ) : ℕ := min (a + b) 255

/-- Saturating addition of two pixels, channel by channel. -/
def addPixel (p q : Pixel) : Pixel :=
  (addChannel p.1 q.1, addChannel p.2.1 q.2.1, addChannel p.2.2 q.2.2)

/-- Pixelwise saturating addition of two same-shape masks. -/
def addMask (m1 m2 : Mask) : Mask :=
  List.zipWith (fun r1 r2 => List.zipWith addPixel r1 r2) m1 m2

/-- The `astype("uint8")` conversion: every channel is reduced mod 256. -/
def astypeUint8 (m : Mask) : Mask :=
  m.map (fun row => row.map (fun p => (p.1 % 256, p.2.1 % 256, p.2.2 % 256)))

/-- Embedding of `merge_masks(masks)`: the source evaluates `masks[0]`
unconditionally, so the empty list raises `IndexError`; otherwise the
remaining masks are accumulated in order with saturating addition. -/
def merge_masks (masks : List Mask) : Except Err Mask :=
  match masks with
  | [] => .error .indexError
  | m :: rest => .ok (rest.foldl (fun acc mk => addMask acc (astypeUint8 mk)) (astypeUint8 m))

/-- Heap of mask objects, for observing numpy array identity: a `Nat` index is
an object reference. -/
abbrev MaskHeap := List Mask

/-- Heap-level embedding of `color_mask`: `color_img = mask.copy()` allocates
a fresh array at the end of the heap holding the same pixels, and the masked
assignment `color_img[mask] = np.array(color)` writes to that fresh array
only; the reference of the fresh array is returned. -/
def color_mask_heap (h : MaskHeap) (r : Nat) (c : Pixel) : MaskHeap × Nat :=
  let h1 := h ++ [h.getD r []]
  let h2 := h1.set h.length (color_mask (h1.getD h.length []) c)
  (h2, h.length)

/-! ## Tile mathematics (`rasters/utils.py`) -/

/-- The `math.radians` conversion. -/
noncomputable def radians (degree : ℝ) : ℝ := degree * Real.pi / 180

/-- The `math.degrees` conversion. -/
noncomputable def degrees (radian : ℝ) : ℝ := radian * 180 / Real.pi

/-- Embedding of `sec(radian) = 1 / cos(radian)`. -/
noncomputable def sec (radian : ℝ) : ℝ := 1 / Real.cos radian

/-- Embedding of `latlon2xyz(lat, lon, z)`. -/
noncomputable def latlon2xyz (lat lon : ℝ) (z : ℕ) : ℤ × ℤ :=
  let tile_count : ℝ := 2 ^ z
  let x : ℝ := (lon + 180) / 360
  let y : ℝ := (1 - Real.log (Real.tan (radians lat) + sec (radians lat)) / Real.pi) / 2
  (⌊tile_count * x⌋, ⌊tile_count * y⌋)

/-- Embedding of `bbox2xyz(lon_min, lat_min, lon_max, lat_max, z)`: the point
conversion applied to the two opposite corners, with
`x_min, y_max = latlon2xyz(lat_min, lon_min, z)` and
`x_max, y_min = latlon2xyz(lat_max, lon_max, z)`. -/
noncomputable def bbox2xyz (lon_min lat_min lon_max lat_max : ℝ) (z : ℕ) : ℤ × ℤ × ℤ × ℤ :=
  let p1 := latlon2xyz lat_min lon_min z
  let p2 := latlon2xyz lat_max lon_max z
  (p1.1, p2.2, p2.1, p1.2)

/-- Embedding of `mercator2lat(mercator_y)`. -/
noncomputable def mercator2lat (mercator_y : ℝ) : ℝ :=
  degrees (Real.arctan (Real.sinh mercator_y))

/-- Embedding of `yz2bounds(y, z)`: latitudes of the two horizontal edges of a
tile, the first from `relative_y1 = y * unit`, the second from
`relative_y2 = relative_y1 + unit`. -/
noncomputable def yz2bounds (y : ℤ) (z : ℕ) : ℝ × ℝ :=
  let tile_count : ℝ := 2 ^ z
  let unit : ℝ := 1 / tile_count
  let relative_y1 : ℝ := (y : ℝ) * unit
  let relative_y2 : ℝ := relative_y1 + unit
  (mercator2lat (Real.pi * (1 - 2 * relative_y1)), mercator2lat (Real.pi * (1 - 2 * relative_y2)))

/-- Embedding of `xz2bounds(x, z)`: longitudes of the two vertical edges of a
tile. -/
noncomputable def xz2bounds (x : ℤ) (z : ℕ) : ℝ × ℝ :=
  let tile_count : ℝ := 2 ^ z
  let unit : ℝ := 360 / tile_count
  let lon1 : ℝ := -180 + (x : ℝ) * unit
  (lon1, lon1 + unit)

/-- Embedding of `xyz2bounds(x, y, z) = (lon1, lat1, lon2, lat2)`. -/
noncomputable def xyz2bounds (x y : ℤ) (z : ℕ) : ℝ × ℝ × ℝ × ℝ :=
  let lats := yz2bounds y z
  let lons := xz2bounds x z
  (lons.1, lats.1, lons.2, lats.2)

/-! ## AnnotationSet construction (`annotations/annotation.py`) -/

/-- Python values as passed to the constructor.  `vlist` stands for both
`list` and `tuple` (the `isinstance(value, (list, tuple))` check accepts
either). -/
inductive PyObj
  | none
  | int (n : Int)
  | str (s : String)
  | vlist (xs : List PyObj)
  | vdict (kvs : List (String × PyObj))

/-- Python truthiness of these values. -/
def truthy : PyObj → Bool
  | .none => false
  | .int n => decide (n ≠ 0)
  | .str s => decide (s ≠ "")
  | .vlist xs => !xs.isEmpty
  | .vdict kvs => !kvs.isEmpty

/-- The Python idiom `a or b`: `b` when `a` is falsy, else `a`. -/
def pyOr (v dflt : PyObj) : PyObj := if truthy v then v else dflt

/-- Whether a value is a Python dict. -/
def isDictV : PyObj → Bool
  | .vdict _ => true
  | _ => false

/-- Whether a value is a Python list or tuple. -/
def isListV : PyObj → Bool
  | .vlist _ => true
  | _ => false

/-- The elements of a list or tuple value; other values have no elements. -/
def listElems : PyObj → List PyObj
  | .vlist xs => xs
  | _ => []

/-- Embedding of `_check_value(value)`: raises `ValueError` (the spec's
SchemaError) unless the value is a dict. -/
def _check_value (v : PyObj) : Except Err Unit :=
  if isDictV v then .ok () else .error .schemaError

/-- The element loop of `_check_values`. -/
def checkEach : List PyObj → Except Err Unit
  | [] => .ok ()
  | x :: xs =>
    match _check_value x with
    | .error e => .error e
    | .ok _ => checkEach xs

/-- Embedding of `_check_values(values)`: raises unless the value is a list or
tuple whose elements are all dicts. -/
def _check_values (vs : PyObj) : Except Err Unit :=
  if isListV vs then checkEach (listElems vs) else .error .schemaError

/-- The default `info` dict built by the constructor; the call
`datetime.now().strftime(...)` is abstracted by the `today` parameter. -/
def defaultInfo (today : String) : PyObj :=
  .vdict [(("description"), .str ("Auto-generated by Geolabel-Maker")), (("date_created"), .str today)]

/-- The four fields stored on a successfully constructed object. -/
structure AnnSetV where
  images : PyObj
  categories : PyObj
  annots : PyObj
  info : PyObj

/-- Embedding of `Annotation.__init__`: each falsy argument is replaced by its
default, then the four checks run in order before any field is assigned, so a
failure produces no partial object. -/
def annInit (images categories annots info : PyObj) (today : String) : Except Err AnnSetV :=
  let imagesv := pyOr images (.vlist [])
  let categoriesv := pyOr categories (.vlist [])
  let annotsv := pyOr annots (.vlist [])
  let infov := pyOr info (defaultInfo today)
  match _check_values imagesv with
  | .error e => .error e
  | .ok _ =>
    match _check_values categoriesv with
    | .error e => .error e
    | .ok _ =>
      match _check_values annotsv with
      | .error e => .error e
      | .ok _ =>
        match _check_value infov with
        | .error e => .error e
        | .ok _ => .ok ⟨imagesv, categoriesv, annotsv, infov⟩

/-- Whether a dict value has the given key. -/
def hasKeyObj (v : PyObj) (k : String) : Bool :=
  match v with
  | .vdict kvs => kvs.any (fun kv => kv.1 == k)
  | _ => false

/-! ## Heap model of annotation records (`to_dict`, `get_labels`)

Annotation records are Python dicts whose relevant values are scalars.  To
observe which dicts are shared and which are copies, the dicts live in a heap
(`List Dict`) and an annotation set stores references (positions) into it. -/

/-- Scalar dict values appearing in annotation records. -/
inductive PyVal
  | none
  | int (n : Int)
  | str (s : String)
  deriving DecidableEq

/-- A Python dict with string keys, as an association list in insertion
order. -/
abbrev Dict := List (String × PyVal)

/-- A heap of dict objects; a `Nat` index is an object reference. -/
abbrev Heap := List Dict

/-- An annotation set whose three record sequences hold references into a
heap. -/
structure AnnSet where
  images : List Nat
  categories : List Nat
  annots : List Nat
  info : Nat
  deriving DecidableEq

/-- Python `d.get(k, None)`. -/
def dictGet (d : Dict) (k : String) : PyVal :=
  match d.find? (fun kv => kv.1 == k) with
  | some kv => kv.2
  | Option.none => .none

/-- Python `d[k]`: `none` means the key is absent (a `KeyError`). -/
def dictGet? (d : Dict) (k : String) : Option PyVal :=
  (d.find? (fun kv => kv.1 == k)).map (fun kv => kv.2)

/-- Whether a dict has the given key. -/
def hasKey (d : Dict) (k : String) : Bool := d.any (fun kv => kv.1 == k)

/-- Python `d[k] = v`: replaces the value in place when the key exists, else
appends the new pair at the end. -/
def dictSet (d : Dict) (k : String) (v : PyVal) : Dict :=
  if hasKey d k then d.map (fun kv => if kv.1 == k then (k, v) else kv)
  else d ++ [(k, v)]

/-- Modelled from the spec: `relative_path` lives in
`geolabel_maker/utils.py`, which is not under `src/`.  Per the spec it
rewrites a path to be relative to `root` (for example root `/data` turns
`/data/a/b.png` into `a/b.png`), and an absent or `None` path field is passed
through unchanged. -/
def relative_path (p : PyVal) (root : String) : PyVal :=
  match p with
  | .str s => .str (if s.startsWith (root ++ "/") then s.drop (root.length + 1) else s)
  | v => v

/-- Python `root or "."` from `to_dict`. -/
def rootOrDot (root : Option String) : String :=
  match root with
  | some r => if r = "" then "." else r
  | Option.none => "."

/-- The `deepcopy` of a list of dict references: allocates a fresh copy of
each referenced dict at the end of the heap, in order, and returns the fresh
references.  The record dicts hold scalar values only, so copying the pairs
is a deep copy. -/
def deepcopyRefs (h : Heap) (rs : List Nat) : Heap × List Nat :=
  match rs with
  | [] => (h, [])
  | r :: rest =>
    let p := deepcopyRefs (h ++ [h.getD r []]) rest
    (p.1, h.length :: p.2)

/-- The in-place rewriting loops of `to_dict`: for each referenced dict, the
`key` field is replaced by its value made relative to `root`
(`image["file_name"] = relative_path(image.get("file_name", None), root)`). -/
def rewriteAll (h : Heap) (rs : List Nat) (key root : String) : Heap :=
  match rs with
  | [] => h
  | r :: rest =>
    rewriteAll (h.set r (dictSet (h.getD r []) key (relative_path (dictGet (h.getD r []) key) root)))
      rest key root

/-- The dict returned by `to_dict`: the info reference and the three lists of
record references. -/
structure DictOut where
  info : Nat
  images : List Nat
  categories : List Nat
  annots : List Nat
  deriving DecidableEq

/-- Embedding of `Annotation.to_dict`: deep-copies the three record sequences,
rewrites the path field of every copy in place, and returns the copies
together with the source's own `info` reference (the source returns
`self.info` without copying it). -/
def to_dict (h : Heap) (s : AnnSet) (root : Option String) : Heap × DictOut :=
  let rt := rootOrDot root
  let pImg := deepcopyRefs h s.images
  let pCat := deepcopyRefs pImg.1 s.categories
  let pAnn := deepcopyRefs pCat.1 s.annots
  let h4 := rewriteAll pAnn.1 pImg.2 ("file_name") rt
  let h5 := rewriteAll h4 pCat.2 ("file_name") rt
  let h6 := rewriteAll h5 pAnn.2 ("image_name") rt
  (h6, ⟨s.info, pImg.2, pCat.2, pAnn.2⟩)

/-- The loop of `get_labels`: scans the annotation references in order; each
record is indexed with `annotation["image_id"]` (a missing key is a
`KeyError`), and each match appends a deep copy, a fresh dict at the end of
the heap. -/
def getLabelsGo (h : Heap) (iid : PyVal) (rs : List Nat) : Except Err (Heap × List Nat) :=
  match rs with
  | [] => .ok (h, [])
  | r :: rest =>
    match dictGet? (h.getD r []) ("image_id") with
    | Option.none => .error .keyError
    | some v =>
      if v = iid then
        match getLabelsGo (h ++ [h.getD r []]) iid rest with
        | .error e => .error e
        | .ok p => .ok (p.1, h.length :: p.2)
      else getLabelsGo h iid rest

/-- Embedding of `Annotation.get_labels(image_id)`. -/
def get_labels (h : Heap) (s : AnnSet) (image_id : PyVal) : Except Err (Heap × List Nat) :=
  getLabelsGo h image_id s.annots

/-- Specification predicate for `get_labels`: the call succeeds, only appends
fresh dicts to the heap, returns fresh references only, and the contents of
the returned references are exactly the records whose `image_id` equals the
argument, in their original order. -/
def GetLabelsOk (h : Heap) (s : AnnSet) (iid : PyVal) : Prop :=
  ∃ p : Heap × List Nat, get_labels h s iid = .ok p ∧
    (∃ ext, p.1 = h ++ ext) ∧
    (∀ l ∈ p.2, h.length ≤ l) ∧
    p.2.map (fun l => p.1.getD l []) =
      (s.annots.map (fun r => h.getD r [])).filter
        (fun d => decide (dictGet? d ("image_id") = some iid))

/-- Concrete heap used by witnesses: two record dicts. -/
def exampleHeap2 : Heap :=
  [[(("description"), PyVal.str ("d"))],
   [(("id"), PyVal.int 0), (("file_name"), PyVal.str ("/data/a.png"))]]

/-- Concrete annotation set used by witnesses: one image record, shared
`info`. -/
def exampleSet2 : AnnSet := ⟨[1], [], [], 0⟩

/-- Concrete heap for the `get_labels` witness: the three annotation records
of the spec's worked example. -/
def exampleHeap7 : Heap :=
  [[(("id"), PyVal.int 0), (("image_id"), PyVal.int 1)],
   [(("id"), PyVal.int 1), (("image_id"), PyVal.int 2)],
   [(("id"), PyVal.int 2), (("image_id"), PyVal.int 2)]]

/-- Concrete annotation set for the `get_labels` witness. -/
def exampleSet7 : AnnSet := ⟨[], [], [0, 1, 2], 0⟩

/-- Concrete mask heap used by the `color_mask` frame witness. -/
def exampleMaskHeap : MaskHeap := [[[(1, 2, 3)]]]

/-! ## List helper lemmas -/

theorem getD_append_lt {α : Type} (l l2 : List α) (n : Nat) (d : α) (hn : n < l.length) :
    (l ++ l2).getD n d = l.getD n d := by
  induction l generalizing n with
  | nil => exact absurd hn (by simp)
  | cons a t ih =>
    cases n with
    | zero => rfl
    | succ n => exact ih n (Nat.lt_of_succ_lt_succ hn)

theorem getD_append_self {α : Type} (l : List α) (a : α) (d : α) :
    (l ++ [a]).getD l.length d = a := by
  induction l with
  | nil => rfl
  | cons b t ih => exact ih

theorem set_append_self {α : Type} (l : List α) (a v : α) :
    (l ++ [a]).set l.length v = l ++ [v] := by
  induction l with
  | nil => rfl
  | cons b t ih => simp [List.set, ih]

theorem getD_set_ne {α : Type} (l : List α) (i j : Nat) (v : α) (d : α) (hij : j ≠ i) :
    (l.set i v).getD j d = l.getD j d := by
  induction l generalizing i j with
  | nil => rfl
  | cons a t ih =>
    cases i with
    | zero =>
      cases j with
      | zero => exact absurd rfl hij
      | succ j => rfl
    | succ i =>
      cases j with
      | zero => rfl
      | succ j => exact ih i j (fun h => hij (by rw [h]))

theorem map_congr_mem {α β : Type} {l : List α} {f g : α → β} (h : ∀ a ∈ l, f a = g a) :
    l.map f = l.map g := by
  induction l with
  | nil => rfl
  | cons a t ih =>
    simp only [List.map_cons]
    rw [h a (by simp), ih (fun b hb => h b (by simp [hb]))]

/-! ## Tile-math helper lemmas -/

/-- The inverse mercator latitude is strictly increasing. -/
theorem mercator2lat_lt {a b : ℝ} (hab : a < b) : mercator2lat a < mercator2lat b := by
  unfold mercator2lat degrees
  have h1 : Real.arctan (Real.sinh a) < Real.arctan (Real.sinh b) :=
    Real.arctan_strictMono (Real.sinh_lt_sinh.mpr hab)
  have hc : (0 : ℝ) < 180 / Real.pi := by positivity
  calc Real.arctan (Real.sinh a) * 180 / Real.pi
      = Real.arctan (Real.sinh a) * (180 / Real.pi) := by ring
    _ < Real.arctan (Real.sinh b) * (180 / Real.pi) := mul_lt_mul_of_pos_right h1 hc
    _ = Real.arctan (Real.sinh b) * 180 / Real.pi := by ring

/-! ## Claims about the tile mathematics -/

/-- C1 counterexample: at tile `(0, 0)` with zoom `0`, the second component of
`xyz2bounds` (the latitude of the northern edge) is strictly greater than the
fourth (the southern edge), so the claimed order
`(lon_min, lat_min, lon_max, lat_max)` with second ≤ fourth is false. -/
theorem xyz2bounds_cex :
    ¬ ((xyz2bounds 0 0 0).2.1 ≤ (xyz2bounds 0 0 0).2.2.2) := by
  rw [not_le]
  simp only [xyz2bounds, yz2bounds, xz2bounds]
  apply mercator2lat_lt
  have hπ := Real.pi_pos
  push_cast
  nlinarith [Real.pi_pos]

/-- C1 (amended): for every tile coordinate and zoom, `xyz2bounds` returns the
4-tuple `(lon_min, lat_max, lon_max, lat_min)`: the first component is
strictly below the third, and the fourth (southern latitude) is strictly
below the second (northern latitude). -/
theorem xyz2bounds_order (x y : ℤ) (z : ℕ) :
    (xyz2bounds x y z).1 < (xyz2bounds x y z).2.2.1 ∧
    (xyz2bounds x y z).2.2.2 < (xyz2bounds x y z).2.1 := by
  simp only [xyz2bounds, yz2bounds, xz2bounds]
  constructor
  · have h : (0 : ℝ) < 360 / 2 ^ z := by positivity
    linarith
  · apply mercator2lat_lt
    have hu : (0 : ℝ) < 1 / 2 ^ z := by positivity
    have h1 : (1 : ℝ) - 2 * ((y : ℝ) * (1 / 2 ^ z) + 1 / 2 ^ z)
        < 1 - 2 * ((y : ℝ) * (1 / 2 ^ z)) := by linarith
    exact mul_lt_mul_of_pos_left h1 Real.pi_pos

/-- C3: `bbox2xyz` takes the returned `x_min` and `y_max` from the
minimum-latitude corner `(lat_min, lon_min)` and the returned `x_max` and
`y_min` from the maximum-latitude corner `(lat_max, lon_max)`, exactly as the
claim states. -/
theorem bbox2xyz_corners (lon_min lat_min lon_max lat_max : ℝ) (z : ℕ) :
    bbox2xyz lon_min lat_min lon_max lat_max z =
      ((latlon2xyz lat_min lon_min z).1, (latlon2xyz lat_max lon_max z).2,
       (latlon2xyz lat_max lon_max z).1, (latlon2xyz lat_min lon_min z).2) := rfl

/-! ## Claims about the mask compositor -/

/-- C4 counterexample: `color_mask` applied with pure black does not raise
anything; on the one-pixel mask `[[(5, 6, 7)]]` it returns the all-black mask
normally, refuting the claim that it raises InvalidArgument. -/
theorem color_mask_black_cex :
    color_mask ([[(5, 6, 7)]] : Mask) (0, 0, 0) = [[(0, 0, 0)]] := by decide

/-- C4 (amended): `color_mask` with pure black as the target color does not
raise; it returns a mask of the same shape with every pixel black (non-black
pixels are overwritten with the target black, black ones are preserved). -/
theorem color_mask_black_all (m : Mask) :
    color_mask m (0, 0, 0) = m.map (fun row => row.map (fun _ => ((0, 0, 0) : Pixel))) := by
  unfold color_mask
  apply map_congr_mem
  intro row _
  apply map_congr_mem
  intro p _
  by_cases hp : p = ((0, 0, 0) : Pixel)
  · subst hp
    rw [if_neg (fun h => h rfl)]
  · rw [if_pos hp]

/-- C5 counterexample: `merge_masks` on the empty sequence does not fail with
InvalidArgument (it fails with an index error from `masks[0]`). -/
theorem merge_masks_empty_cex :
    merge_masks ([] : List Mask) ≠ Except.error Err.invalidArgument := by
  intro heq
  have h1 : merge_masks ([] : List Mask) = Except.error Err.indexError := rfl
  rw [h1] at heq
  exact Err.noConfusion (Except.error.inj heq)

/-- C5 (amended): `merge_masks` on the empty sequence fails, but with the
index error raised by the unconditional `masks[0]`, not with
InvalidArgument. -/
theorem merge_masks_empty_eq :
    merge_masks ([] : List Mask) = Except.error Err.indexError := rfl

/-- C8: recoloring is idempotent: applying `color_mask` twice with the same
non-black color gives the same mask as applying it once. -/
theorem color_mask_idem (m : Mask) (c : Pixel) (hc : c ≠ ((0, 0, 0) : Pixel)) :
    color_mask (color_mask m c) c = color_mask m c := by
  unfold color_mask
  rw [List.map_map]
  apply map_congr_mem
  intro row _
  simp only [Function.comp]
  rw [List.map_map]
  apply map_congr_mem
  intro p _
  simp only [Function.comp]
  by_cases hp : p = ((0, 0, 0) : Pixel)
  · subst hp
    rw [if_neg (fun h => h rfl), if_neg (fun h => h rfl)]
  · rw [if_pos hp, if_pos hc]

/-- C8 witness: idempotence evaluated on a concrete two-pixel mask and the
concrete non-black color `(1, 2, 3)`. -/
theorem color_mask_idem_witness :
    ((1, 2, 3) : Pixel) ≠ ((0, 0, 0) : Pixel) ∧
    color_mask (color_mask ([[(9, 0, 1), (0, 0, 0)]] : Mask) (1, 2, 3)) (1, 2, 3) =
      color_mask ([[(9, 0, 1), (0, 0, 0)]] : Mask) (1, 2, 3) :=
  ⟨by decide, color_mask_idem [[(9, 0, 1), (0, 0, 0)]] (1, 2, 3) (by decide)⟩

/-- C10: at the heap level, `color_mask` does not mutate its input array: the
input reference still holds the original pixels afterwards, the returned
reference is a different object, and the fresh object holds the recolored
pixels. -/
theorem color_mask_heap_frame (h : MaskHeap) (r : Nat) (c : Pixel) (hr : r < h.length) :
    (color_mask_heap h r c).1.getD r [] = h.getD r [] ∧
    (color_mask_heap h r c).2 ≠ r ∧
    (color_mask_heap h r c).1.getD (color_mask_heap h r c).2 [] = color_mask (h.getD r []) c := by
  simp only [color_mask_heap]
  rw [getD_append_self, set_append_self]
  refine ⟨getD_append_lt h _ r [] hr, ?_, getD_append_self h _ []⟩
  omega

/-- C10 witness: the frame property evaluated on a concrete one-mask heap. -/
theorem color_mask_heap_frame_witness :
    (color_mask_heap exampleMaskHeap 0 (7, 8, 9)).1.getD 0 [] = exampleMaskHeap.getD 0 [] ∧
    (color_mask_heap exampleMaskHeap 0 (7, 8, 9)).2 ≠ 0 ∧
    (color_mask_heap exampleMaskHeap 0 (7, 8, 9)).1.getD
        (color_mask_heap exampleMaskHeap 0 (7, 8, 9)).2 [] =
      color_mask (exampleMaskHeap.getD 0 []) (7, 8, 9) :=
  color_mask_heap_frame exampleMaskHeap 0 (7, 8, 9) (by decide)

/-! ## Claims about AnnotationSet construction -/

/-- The element check loop succeeds exactly when every element is a dict. -/
theorem checkEach_eq (xs : List PyObj) :
    checkEach xs = (if xs.all isDictV then Except.ok () else Except.error Err.schemaError) := by
  induction xs with
  | nil => rfl
  | cons x t ih =>
    simp only [checkEach, _check_value]
    cases hx : isDictV x
    · simp [hx]
    · simp [hx, ih]

/-- The sequence check succeeds exactly on lists or tuples of dicts. -/
theorem check_values_eq (v : PyObj) :
    _check_values v =
      (if isListV v && (listElems v).all isDictV then Except.ok ()
       else Except.error Err.schemaError) := by
  unfold _check_values
  cases hl : isListV v
  · simp [hl]
  · simp [hl, checkEach_eq]

/-- C6 counterexample: with `images = 5` (an int, which contains no elements),
empty categories and annotations, and a genuine dict as `info`, the
constructor still raises SchemaError, refuting the claimed "exactly when one
of the sequences contains a non-map element or info is not a map". -/
theorem annInit_exactly_cex :
    annInit (PyObj.int 5) (PyObj.vlist []) (PyObj.vlist [])
        (PyObj.vdict [(("a"), PyObj.int 1)]) ("d") = Except.error Err.schemaError ∧
    ¬ ((∃ x ∈ listElems (PyObj.int 5), isDictV x = false) ∨
       (∃ x ∈ listElems (PyObj.vlist []), isDictV x = false) ∨
       (∃ x ∈ listElems (PyObj.vlist []), isDictV x = false) ∨
       isDictV (PyObj.vdict [(("a"), PyObj.int 1)]) = false) := by
  refine ⟨rfl, ?_⟩
  intro hcl
  rcases hcl with h | h | h | h
  · obtain ⟨x, hx, _⟩ := h
    exact absurd hx (by simp [listElems])
  · obtain ⟨x, hx, _⟩ := h
    exact absurd hx (by simp [listElems])
  · obtain ⟨x, hx, _⟩ := h
    exact absurd hx (by simp [listElems])
  · exact absurd h (by simp [isDictV])

/-- C6 (amended): after the falsy-default substitution, construction fails
with SchemaError exactly when one of `images`, `categories`, `annotations` is
not a list/tuple of dicts (not a sequence at all, or containing a non-dict
element), or `info` is not a dict; otherwise it succeeds, and failure happens
before any field is assigned. -/
theorem annInit_error_iff (images categories annots info : PyObj) (today : String) :
    annInit images categories annots info today = Except.error Err.schemaError ↔
      (¬ (isListV (pyOr images (PyObj.vlist [])) = true ∧
          ∀ x ∈ listElems (pyOr images (PyObj.vlist [])), isDictV x = true) ∨
       ¬ (isListV (pyOr categories (PyObj.vlist [])) = true ∧
          ∀ x ∈ listElems (pyOr categories (PyObj.vlist [])), isDictV x = true) ∨
       ¬ (isListV (pyOr annots (PyObj.vlist [])) = true ∧
          ∀ x ∈ listElems (pyOr annots (PyObj.vlist [])), isDictV x = true) ∨
       ¬ isDictV (pyOr info (defaultInfo today)) = true) := by
  simp only [annInit, check_values_eq, _check_value]
  by_cases h1 : (isListV (pyOr images (PyObj.vlist [])) &&
      (listElems (pyOr images (PyObj.vlist []))).all isDictV) = true <;>
  by_cases h2 : (isListV (pyOr categories (PyObj.vlist [])) &&
      (listElems (pyOr categories (PyObj.vlist []))).all isDictV) = true <;>
  by_cases h3 : (isListV (pyOr annots (PyObj.vlist [])) &&
      (listElems (pyOr annots (PyObj.vlist []))).all isDictV) = true <;>
  by_cases h4 : isDictV (pyOr info (defaultInfo today)) = true <;>
  simp only [h1, h2, h3, h4, Bool.and_eq_true, List.all_eq_true, if_true, if_false,
    eq_self_iff_true, if_pos, if_neg] <;>
  simp_all [Bool.and_eq_true, List.all_eq_true]

/-- The info field of a successfully constructed set is the passed info after
the falsy-default substitution. -/
theorem annInit_ok_info {images categories annots info : PyObj} {today : String} {r : AnnSetV}
    (hok : annInit images categories annots info today = Except.ok r) :
    r.info = pyOr info (defaultInfo today) := by
  simp only [annInit] at hok
  split at hok
  · exact Except.noConfusion hok
  · split at hok
    · exact Except.noConfusion hok
    · split at hok
      · exact Except.noConfusion hok
      · split at hok
        · exact Except.noConfusion hok
        · rw [← Except.ok.inj hok]

/-- C9: constructing with `info` omitted (`None`) or an explicitly passed
empty dict always stores the default info, a dict holding a `description` and
a `date_created` key; in particular the empty dict is silently replaced and
cannot be preserved. -/
theorem annInit_default_info (images categories annots info : PyObj) (today : String)
    (r : AnnSetV) (hinfo : info = PyObj.none ∨ info = PyObj.vdict [])
    (hok : annInit images categories annots info today = Except.ok r) :
    r.info = defaultInfo today ∧ hasKeyObj r.info ("description") = true ∧
    hasKeyObj r.info ("date_created") = true ∧ r.info ≠ PyObj.vdict [] := by
  have hi := annInit_ok_info hok
  have hrepl : pyOr info (defaultInfo today) = defaultInfo today := by
    rcases hinfo with h | h <;> subst h <;> rfl
  rw [hi, hrepl]
  refine ⟨rfl, rfl, rfl, ?_⟩
  intro h
  simp only [defaultInfo, PyObj.vdict.injEq] at h
  exact List.noConfusion h

/-- C9 witness: constructing with all record arguments omitted and an
explicit empty `info` dict succeeds and stores the default info. -/
theorem annInit_default_info_witness :
    AnnSetV.info ⟨PyObj.vlist [], PyObj.vlist [], PyObj.vlist [], defaultInfo ("2021/01/01")⟩ =
      defaultInfo ("2021/01/01") ∧
    hasKeyObj (AnnSetV.info ⟨PyObj.vlist [], PyObj.vlist [], PyObj.vlist [],
      defaultInfo ("2021/01/01")⟩) ("description") = true ∧
    hasKeyObj (AnnSetV.info ⟨PyObj.vlist [], PyObj.vlist [], PyObj.vlist [],
      defaultInfo ("2021/01/01")⟩) ("date_created") = true ∧
    AnnSetV.info ⟨PyObj.vlist [], PyObj.vlist [], PyObj.vlist [],
      defaultInfo ("2021/01/01")⟩ ≠ PyObj.vdict [] :=
  annInit_default_info PyObj.none PyObj.none PyObj.none (PyObj.vdict []) ("2021/01/01")
    ⟨PyObj.vlist [], PyObj.vlist [], PyObj.vlist [], defaultInfo ("2021/01/01")⟩
    (Or.inr rfl) rfl

/-! ## Heap lemmas for `to_dict` and `get_labels` -/

/-- Deep-copying only appends to the heap. -/
theorem deepcopyRefs_ext (rs : List Nat) (h : Heap) :
    ∃ ext, (deepcopyRefs h rs).1 = h ++ ext := by
  induction rs generalizing h with
  | nil => exact ⟨[], by simp [deepcopyRefs]⟩
  | cons r rest ih =>
    obtain ⟨ext, hext⟩ := ih (h ++ [h.getD r []])
    refine ⟨h.getD r [] :: ext, ?_⟩
    simp only [deepcopyRefs]
    rw [hext, List.append_assoc]
    rfl

/-- Deep-copying returns references to freshly allocated objects only. -/
theorem deepcopyRefs_fresh (rs : List Nat) (h : Heap) :
    ∀ l ∈ (deepcopyRefs h rs).2, h.length ≤ l := by
  induction rs generalizing h with
  | nil => simp [deepcopyRefs]
  | cons r rest ih =>
    intro l hl
    simp only [deepcopyRefs, List.mem_cons] at hl
    rcases hl with rfl | hl
    · exact le_refl _
    · have := ih (h ++ [h.getD r []]) l hl
      simp only [List.length_append, List.length_cons, List.length_nil] at this
      omega

/-- The in-place rewriting loops do not touch any object below the smallest
rewritten reference. -/
theorem rewriteAll_getD_lt (rs : List Nat) (h : Heap) (key root : String) (n r : Nat) (d : Dict)
    (hge : ∀ q ∈ rs, n ≤ q) (hr : r < n) :
    (rewriteAll h rs key root).getD r d = h.getD r d := by
  induction rs generalizing h with
  | nil => rfl
  | cons q rest ih =>
    simp only [rewriteAll]
    rw [ih _ (fun q2 hq2 => hge q2 (List.mem_cons_of_mem _ hq2))]
    refine getD_set_ne h q r _ d ?_
    have := hge q (by simp)
    omega

/-! ## Claims about `to_dict` -/

/-- C2 counterexample: `to_dict` returns the source's `info` dict itself, not
a deep copy: on a concrete set the returned `info` reference coincides with
the source's, and mutating the heap object behind the returned reference
changes what the source's `info` reference reads. -/
theorem to_dict_info_cex :
    (to_dict [[(("description"), PyVal.str ("d"))]] (AnnSet.mk [] [] [] 0) (some ("."))).2.info =
      AnnSet.info (AnnSet.mk [] [] [] 0) ∧
    ((to_dict [[(("description"), PyVal.str ("d"))]] (AnnSet.mk [] [] [] 0) (some ("."))).1.set
        (to_dict [[(("description"), PyVal.str ("d"))]] (AnnSet.mk [] [] [] 0) (some ("."))).2.info
        [(("description"), PyVal.str ("changed"))]).getD
      (AnnSet.info (AnnSet.mk [] [] [] 0)) [] = [(("description"), PyVal.str ("changed"))] ∧
    ([[(("description"), PyVal.str ("d"))]] : Heap).getD (AnnSet.info (AnnSet.mk [] [] [] 0)) [] ≠
      [(("description"), PyVal.str ("changed"))] := by
  refine ⟨rfl, rfl, ?_⟩
  intro hcontra
  simp at hcontra

/-- C2 (amended): `to_dict` never mutates the source set or any
pre-existing object, and the `images`, `categories`, `annotations` values of
the result are deep copies (freshly allocated references only); but the
result's `info` is the source's own `info` object, so mutating it afterwards
does mutate the source. -/
theorem to_dict_spec (h : Heap) (s : AnnSet) (root : Option String) :
    (to_dict h s root).2.info = s.info ∧
    (∀ r, r < h.length → (to_dict h s root).1.getD r [] = h.getD r []) ∧
    (∀ r ∈ (to_dict h s root).2.images ++ (to_dict h s root).2.categories ++
        (to_dict h s root).2.annots, h.length ≤ r) := by
  obtain ⟨e1, he1⟩ := deepcopyRefs_ext s.images h
  obtain ⟨e2, he2⟩ := deepcopyRefs_ext s.categories (deepcopyRefs h s.images).1
  obtain ⟨e3, he3⟩ :=
    deepcopyRefs_ext s.annots (deepcopyRefs (deepcopyRefs h s.images).1 s.categories).1
  have len1 : h.length ≤ (deepcopyRefs h s.images).1.length := by
    rw [he1]; simp
  have len2 : h.length ≤ (deepcopyRefs (deepcopyRefs h s.images).1 s.categories).1.length := by
    rw [he2]
    simp only [List.length_append]
    omega
  have f1 : ∀ l ∈ (deepcopyRefs h s.images).2, h.length ≤ l := deepcopyRefs_fresh s.images h
  have f2 : ∀ l ∈ (deepcopyRefs (deepcopyRefs h s.images).1 s.categories).2, h.length ≤ l :=
    fun l hl => le_trans len1 (deepcopyRefs_fresh s.categories _ l hl)
  have f3 : ∀ l ∈ (deepcopyRefs (deepcopyRefs (deepcopyRefs h s.images).1 s.categories).1
      s.annots).2, h.length ≤ l :=
    fun l hl => le_trans len2 (deepcopyRefs_fresh s.annots _ l hl)
  refine ⟨rfl, ?_, ?_⟩
  · intro r hr
    simp only [to_dict]
    rw [rewriteAll_getD_lt _ _ _ _ h.length r _ f3 hr,
      rewriteAll_getD_lt _ _ _ _ h.length r _ f2 hr,
      rewriteAll_getD_lt _ _ _ _ h.length r _ f1 hr,
      he3, getD_append_lt _ _ _ _ (lt_of_lt_of_le hr len2),
      he2, getD_append_lt _ _ _ _ (lt_of_lt_of_le hr len1),
      he1, getD_append_lt _ _ _ _ hr]
  · intro rr hrr
    simp only [to_dict] at hrr
    rcases List.mem_append.mp hrr with hrr2 | hrr2
    · rcases List.mem_append.mp hrr2 with hrr3 | hrr3
      · exact f1 rr hrr3
      · exact f2 rr hrr3
    · exact f3 rr hrr2

/-- C2 witness: the amended `to_dict` contract evaluated on a concrete heap
with a shared info dict and one image record carrying a `/data/a.png` path. -/
theorem to_dict_spec_witness :
    (to_dict exampleHeap2 exampleSet2 (some ("/data"))).2.info = exampleSet2.info ∧
    (∀ r, r < exampleHeap2.length →
      (to_dict exampleHeap2 exampleSet2 (some ("/data"))).1.getD r [] = exampleHeap2.getD r []) ∧
    (∀ r ∈ (to_dict exampleHeap2 exampleSet2 (some ("/data"))).2.images ++
        (to_dict exampleHeap2 exampleSet2 (some ("/data"))).2.categories ++
        (to_dict exampleHeap2 exampleSet2 (some ("/data"))).2.annots,
      exampleHeap2.length ≤ r) :=
  to_dict_spec exampleHeap2 exampleSet2 (some ("/data"))

/-! ## Claims about `get_labels` -/

/-- Full specification of the `get_labels` loop, proved by induction on the
scanned references: under well-formed inputs (valid references whose records
carry the `image_id` key) the loop succeeds, only appends fresh copies, and
returns exactly the matching records in order. -/
theorem getLabelsGo_spec (iid : PyVal) (rs : List Nat) (h : Heap)
    (hv : ∀ r ∈ rs, r < h.length ∧ hasKey (h.getD r []) ("image_id") = true) :
    ∃ p : Heap × List Nat, getLabelsGo h iid rs = .ok p ∧
      (∃ ext, p.1 = h ++ ext) ∧
      (∀ l ∈ p.2, h.length ≤ l) ∧
      p.2.map (fun l => p.1.getD l []) =
        (rs.map (fun r => h.getD r [])).filter
          (fun d => decide (dictGet? d ("image_id") = some iid)) := by
  induction rs generalizing h with
  | nil => exact ⟨(h, []), rfl, ⟨[], by simp⟩, by simp, by simp⟩
  | cons r rest ih =>
    obtain ⟨hr, hk⟩ := hv r (by simp)
    obtain ⟨v, hget⟩ : ∃ v, dictGet? (h.getD r []) ("image_id") = some v := by
      unfold hasKey at hk
      rw [List.any_eq_true] at hk
      obtain ⟨kv, hmem, hkv⟩ := hk
      have hfind : (List.find? (fun kv => kv.1 == ("image_id")) (h.getD r [])).isSome := by
        rw [List.find?_isSome]
        exact ⟨kv, hmem, hkv⟩
      obtain ⟨kv2, hkv2⟩ := Option.isSome_iff_exists.mp hfind
      refine ⟨kv2.2, ?_⟩
      unfold dictGet?
      rw [hkv2]
      rfl
    by_cases hvi : v = iid
    · subst hvi
      have hv2 : ∀ q ∈ rest, q < (h ++ [h.getD r []]).length ∧
          hasKey ((h ++ [h.getD r []]).getD q []) ("image_id") = true := by
        intro q hq
        obtain ⟨hq1, hq2⟩ := hv q (List.mem_cons_of_mem _ hq)
        constructor
        · simp only [List.length_append, List.length_cons, List.length_nil]
          omega
        · rw [getD_append_lt _ _ _ _ hq1]
          exact hq2
      obtain ⟨p, hp, ⟨ext, hext⟩, hfresh, hmap⟩ := ih (h ++ [h.getD r []]) hv2
      have hhead : p.1.getD h.length [] = h.getD r [] := by
        rw [hext, getD_append_lt (h ++ [h.getD r []]) ext h.length [] (by simp)]
        exact getD_append_self h _ []
      have htail : p.2.map (fun l => p.1.getD l []) =
          (rest.map (fun q => h.getD q [])).filter
            (fun d => decide (dictGet? d ("image_id") = some v)) := by
        rw [hmap]
        congr 1
        apply map_congr_mem
        intro q hq
        exact getD_append_lt h [h.getD r []] q [] (hv q (List.mem_cons_of_mem _ hq)).1
      refine ⟨(p.1, h.length :: p.2), ?_, ⟨h.getD r [] :: ext, ?_⟩, ?_, ?_⟩
      · simp only [getLabelsGo, hget, eq_self_iff_true, if_true, hp]
      · rw [hext, List.append_assoc]
        rfl
      · intro l hl
        rcases List.mem_cons.mp hl with rfl | hl
        · exact le_refl _
        · have := hfresh l hl
          simp only [List.length_append, List.length_cons, List.length_nil] at this
          omega
      · rw [List.map_cons, List.map_cons,
          List.filter_cons_of_pos (by simp only [hget, eq_self_iff_true, decide_True]),
          hhead, htail]
    · obtain ⟨p, hp, hhext, hfresh, hmap⟩ :=
        ih h (fun q hq => hv q (List.mem_cons_of_mem _ hq))
      refine ⟨p, ?_, hhext, hfresh, ?_⟩
      · simp only [getLabelsGo, hget]
        rw [if_neg hvi]
        exact hp
      · rw [List.map_cons, List.filter_cons_of_neg (by
          simp only [hget, decide_eq_true_eq]
          exact fun hcon => hvi (Option.some.inj hcon))]
        exact hmap

/-- C7: under well-formed inputs (every annotation reference is valid and its
record has the `image_id` key), `get_labels` never raises — also when nothing
matches — and returns exactly the records whose `image_id` equals the
argument, in their original order, as freshly allocated deep copies, leaving
every pre-existing object unchanged. -/
theorem get_labels_spec (h : Heap) (s : AnnSet) (image_id : PyVal)
    (hv : ∀ r ∈ s.annots, r < h.length ∧ hasKey (h.getD r []) ("image_id") = true) :
    GetLabelsOk h s image_id :=
  getLabelsGo_spec image_id s.annots h hv

/-- C7 witness: the `get_labels` contract evaluated on the spec's worked
example, three annotation records with `image_id` 1, 2, 2 queried for 2. -/
theorem get_labels_spec_witness : GetLabelsOk exampleHeap7 exampleSet7 (PyVal.int 2) :=
  get_labels_spec exampleHeap7 exampleSet7 (PyVal.int 2) (by decide)

end Geolabel
